import Mathlib

/-!
Verification of the Omega Labs commune validator scoring logic
(`src/subnet/validator/validator.py`) against its natural-language
specification.

The development is a shallow embedding of the validator's pure decision
logic.  Conventions:

* Python floats are modelled as rationals (`ℚ`).  The torch cosine kernel
  `F.cosine_similarity` is an external floating-point routine; it is
  modelled as an explicit similarity parameter `sim : α → α → ℚ` over an
  abstract embedding-vector type `α`, threaded through every definition
  exactly where the source calls the kernel.  (Concrete instantiations in
  witnesses use the rational dot product, which coincides with cosine
  similarity on unit-norm vectors.)
* External services (video download, `is_valid_id`, the audit embedding
  comparison, the novelty-index endpoint, the query embedding) are
  oracle parameters bundled in `Externals`.
* Fallible code paths (Python exceptions) are modelled with `Option` /
  explicit error constructors: the big `try`/`except` of
  `check_videos_and_calculate_rewards` turns any raised exception into a
  returned `None`, which we model as `none`.
* The numeric constants imported from `omega.constants` are not part of
  the sources; they are kept as parameters (`Consts`), so every theorem
  quantifies over them.
* A `Trace` record instruments which pipeline phases ran and how many
  times the external novelty index was called, mirroring the source's
  control flow; it is needed to state the "phase X never runs" claims.
-/

namespace OmegaValidator

/-- `NO_RESPONSE_MINIMUM = 0.005` (validator.py line 69). -/
def NO_RESPONSE_MINIMUM : ℚ := 5 / 1000

/-- The numeric constants imported from `omega.constants`
(values live outside the provided sources, so they stay abstract). -/
structure Consts where
  simThreshold : ℚ
  diffThreshold : ℚ
  minScore : ℚ
  fakePunishment : ℚ
  minVideoLength : ℤ
  maxVideoLength : ℤ

/-- `omega.protocol.VideoMetadata` (modelled from the spec's
`VideoMetadataItem`; the protocol file is not under the provided sources):
a claimed item with id, clip bounds and one embedding per modality.
`α` is the abstract embedding-vector type, `ι` the video-id type. -/
structure VideoMetadata (α ι : Type) where
  video_id : ι
  start_time : ℤ
  end_time : ℤ
  video_emb : α
  audio_emb : α
  description_emb : α
deriving DecidableEq

/-- `omega.protocol.Videos` (modelled from the spec's `Submission`): a
worker response carrying its own `num_videos` field and the item list. -/
structure Videos (α ι : Type) where
  num_videos : ℕ
  video_metadata : List (VideoMetadata α ι)
deriving DecidableEq

/-- `omega.imagebind_wrapper.Embeddings`: parallel stacked vectors,
index-aligned with the metadata list. -/
structure Embeddings (α : Type) where
  video : List α
  audio : List α
  description : List α
deriving DecidableEq

/-- `VideosValidator.metadata_check` (validator.py lines 525-532): keep the
items whose duration satisfies `end - start <= MAX and end - start >= MIN`. -/
def metadata_check (c : Consts) (metadata : List (VideoMetadata α ι)) :
    List (VideoMetadata α ι) :=
  metadata.filter fun v =>
    decide (v.end_time - v.start_time ≤ c.maxVideoLength) &&
    decide (v.end_time - v.start_time ≥ c.minVideoLength)

/-- Line 665: `self.metadata_check(videos.video_metadata)[:input_synapse.num_videos]`. -/
def candidateFilter (c : Consts) (requestedCount : ℕ)
    (metadata : List (VideoMetadata α ι)) : List (VideoMetadata α ι) :=
  (metadata_check c metadata).take requestedCount

/-- The list comprehensions `[x for x, too_similar in zip(xs, flags) if not too_similar]`
(lines 695 and 737): keep the entries whose flag is `false`; `zip` truncates
at the shorter list. -/
def filterFlags : List β → List Bool → List β
  | x :: xs, b :: bs => if b then filterFlags xs bs else x :: filterFlags xs bs
  | _, _ => []

/-- `VideosValidator.deduplicate_videos` (lines 542-553): flag item `i` iff
its similarity to some item of index `> i` exceeds `SIMILARITY_THRESHOLD`
(`(cossim(x[[i]], x[i+1:]) > SIMILARITY_THRESHOLD).any()`). -/
def dedupFlags (sim : α → α → ℚ) (thr : ℚ) : List α → List Bool
  | [] => []
  | x :: xs => (xs.any fun y => decide (thr < sim x y)) :: dedupFlags sim thr xs

/-- `VideosValidator.filter_embeddings` (lines 534-540): boolean-mask each
modality tensor with the negated flags.  Torch raises `IndexError` when the
mask length differs from the tensor's first dimension; the raised exception
is modelled as `none`. -/
def filter_embeddings (e : Embeddings α) (mask : List Bool) :
    Option (Embeddings α) :=
  if mask.length = e.video.length ∧ mask.length = e.audio.length ∧
      mask.length = e.description.length then
    some ⟨filterFlags e.video mask, filterFlags e.audio mask,
          filterFlags e.description mask⟩
  else none

/-- `.max()` of a non-empty tensor of similarity values. -/
def listMax : List ℚ → ℚ
  | [] => 0
  | x :: xs => xs.foldl max x

/-- `VideosValidator.compute_novelty_score_among_batch` (lines 630-638):
for every item except the last, `1 - max similarity to the later items`;
the last item gets `1.0`.  (On an empty batch the Python loop body never
runs and the trailing `append(1.0)` still yields `[1.0]`; that quirk is
reproduced, though the call site guards against the empty batch.) -/
def compute_novelty_score_among_batch (sim : α → α → ℚ) :
    List α → List ℚ
  | [] => [1]
  | [_] => [1]
  | x :: y :: xs =>
      (1 - listMax ((y :: xs).map (sim x))) ::
        compute_novelty_score_among_batch sim (y :: xs)

/-- `VideosValidator.compute_final_novelty_score` (lines 644-650): sum of
the base scores that are not flagged `< DIFFERENCE_THRESHOLD`. -/
def compute_final_novelty_score (diffThr : ℚ) (baseScores : List ℚ) : ℚ :=
  (baseScores.filter fun s => !decide (s < diffThr)).sum

/-- Outcome of one `video_utils.download_video` attempt (external service,
`μ` is the abstract media-handle type): success, `IPBlockedException`,
`FakeVideoException`, or `asyncio.TimeoutError`. -/
inductive DLRes (μ : Type) where
  | ok (media : μ)
  | ipBlocked
  | fake
  | timeout
deriving DecidableEq

/-- Result of `VideosValidator.get_random_video` (lines 564-603):
`punished` models `return None` (fake video), `noMedia m` models
`return m, None` (description-only fallback), `withMedia` a successful
download, and `error` an uncaught exception escaping the function
(`random.choice` on an empty list, or the final `return random_metadata,
None` with `random_metadata` never bound). -/
inductive GRVResult (α ι μ : Type) where
  | punished
  | noMedia (m : VideoMetadata α ι)
  | withMedia (m : VideoMetadata α ι) (media : μ)
  | error
deriving DecidableEq

/-- The `while random_video is None and len(metadata_copy) > 0` loop of
`get_random_video` (lines 571-601).  `dl` is the download oracle,
`choices` the stream of random indices (`random.randint(0, len-1)`,
totalised by reducing modulo the current pool size), `pending` is
`metadata_copy`, and `attempted` accumulates the popped candidates in
order (so that the post-loop `random_metadata` is `attempted.getLast?`).
Returns the result together with the attempted list. -/
def grvLoop (dl : VideoMetadata α ι → DLRes μ) (choices : List ℕ)
    (pending attempted : List (VideoMetadata α ι)) :
    GRVResult α ι μ × List (VideoMetadata α ι) :=
  match pending with
  | [] =>
    match attempted.getLast? with
    | some m => (.noMedia m, attempted)
    | none => (.error, attempted)
  | p :: ps =>
    have hidx : (choices.headD 0) % (p :: ps).length < (p :: ps).length :=
      Nat.mod_lt _ (Nat.succ_pos _)
    let m := (p :: ps).get ⟨(choices.headD 0) % (p :: ps).length, hidx⟩
    match dl m with
    | .ok med => (.withMedia m med, attempted ++ [m])
    | .ipBlocked => (.noMedia m, attempted ++ [m])
    | .fake => (.punished, attempted ++ [m])
    | .timeout =>
        grvLoop dl choices.tail
          ((p :: ps).eraseIdx ((choices.headD 0) % (p :: ps).length))
          (attempted ++ [m])
termination_by pending.length
decreasing_by
  simp only [List.length_eraseIdx, hidx, if_pos]
  simp

/-- `VideosValidator.get_random_video` (lines 564-603).  With
`check_video` false it is `random.choice(metadata)` paired with no media
(raising `IndexError` on an empty list); otherwise the download loop.
The second component is the list of download-attempted candidates. -/
def get_random_video (dl : VideoMetadata α ι → DLRes μ) (choices : List ℕ)
    (metadata : List (VideoMetadata α ι)) (checkVideo : Bool) :
    GRVResult α ι μ × List (VideoMetadata α ι) :=
  if checkVideo then
    grvLoop dl choices metadata []
  else
    match metadata with
    | [] => (.error, [])
    | p :: ps =>
      (.noMedia ((p :: ps).get ⟨(choices.headD 0) % (p :: ps).length,
        Nat.mod_lt _ (Nat.succ_pos _)⟩), [])

/-- Outcome of the novelty segment (lines 704-745) of
`check_videos_and_calculate_rewards`: `errorNone` models `return None`
(the index returned nothing, or the mask-length mismatch exception in
`filter_embeddings`), `minScore` the `return MIN_SCORE` on an emptied
batch, and `ok` the surviving metadata, the filtered aligned batch and
the full `true_novelty_scores` list. -/
inductive NoveltyOutcome (α ι : Type) where
  | errorNone
  | minScore
  | ok (metadata : List (VideoMetadata α ι)) (embs : Embeddings α)
      (trueScores : List ℚ)
deriving DecidableEq

/-- Line 708-712: `embeddings_to_check`, the items whose local novelty
score is `>= DIFFERENCE_THRESHOLD`, as the filtered
`zip(embeddings.video, local_novelty_scores, metadata)`. -/
def noveltyToCheck (sim : α → α → ℚ) (diffThr : ℚ)
    (metadata : List (VideoMetadata α ι)) (embs : Embeddings α) :
    List ((α × ℚ) × VideoMetadata α ι) :=
  ((embs.video.zip (compute_novelty_score_among_batch sim embs.video)).zip
    metadata).filter fun p => decide (p.1.2 ≥ diffThr)

/-- Lines 713-719: `global_novelty_scores` — the external index is
queried once with the filtered metadata when anything is to be checked,
otherwise the list defaults to `[]` (and the `len == 0` guard at line
721 then returns `None`). -/
def noveltyGlobal (sim : α → α → ℚ) (diffThr : ℚ)
    (oracle : List (VideoMetadata α ι) → Option (List ℚ))
    (metadata : List (VideoMetadata α ι)) (embs : Embeddings α) :
    Option (List ℚ) :=
  if (noveltyToCheck sim diffThr metadata embs).isEmpty then some []
  else oracle ((noveltyToCheck sim diffThr metadata embs).map Prod.snd)

/-- `true_novelty_scores` (lines 727-730): `zip` of local and global
scores under `min` — note the `zip` truncates at the shorter list. -/
def trueNoveltyScores (sim : α → α → ℚ) (embs : Embeddings α)
    (g : List ℚ) : List ℚ :=
  List.zipWith min (compute_novelty_score_among_batch sim embs.video) g

/-- Lines 721-745 given the retrieved `global_novelty_scores`: the
`None`-and-empty guard, the `< DIFFERENCE_THRESHOLD` mask over the true
novelty scores, the metadata filter and the embedding filter (whose
mask-length mismatch exception is `none` → overall `errorNone`), and the
empty-batch `MIN_SCORE` return. -/
def noveltyResolve (sim : α → α → ℚ) (diffThr : ℚ)
    (metadata : List (VideoMetadata α ι)) (embs : Embeddings α) :
    Option (List ℚ) → NoveltyOutcome α ι
  | none => .errorNone
  | some g =>
    if g.isEmpty then .errorNone
    else
      match filter_embeddings embs ((trueNoveltyScores sim embs g).map
          fun s => decide (s < diffThr)) with
      | none => .errorNone
      | some embs2 =>
        if (filterFlags metadata ((trueNoveltyScores sim embs g).map
            fun s => decide (s < diffThr))).isEmpty then .minScore
        else
          .ok (filterFlags metadata ((trueNoveltyScores sim embs g).map
            fun s => decide (s < diffThr))) embs2 (trueNoveltyScores sim embs g)

/-- Lines 704-745 of `check_videos_and_calculate_rewards` assembled: the
outcome of the novelty segment together with the number of calls made to
the external novelty index. -/
def noveltyPhase (sim : α → α → ℚ) (diffThr : ℚ)
    (oracle : List (VideoMetadata α ι) → Option (List ℚ))
    (metadata : List (VideoMetadata α ι)) (embs : Embeddings α) :
    NoveltyOutcome α ι × ℕ :=
  (noveltyResolve sim diffThr metadata embs
     (noveltyGlobal sim diffThr oracle metadata embs),
   if (noveltyToCheck sim diffThr metadata embs).isEmpty then 0 else 1)

/-- External collaborators of `check_videos_and_calculate_rewards`,
bundled: `video_utils.is_valid_id`, the outcome of the probabilistic gate
`CHECK_PROBABILITY > random.random()`, the download oracle and random
index stream, the audit verification (`random_check`, an imagebind
comparison), the embedded query text, and the novelty-index endpoint
(`get_novelty_scores`, which returns `None` on any HTTP error). -/
structure Externals (α ι μ : Type) where
  validId : ι → Bool
  checkVideo : Bool
  dl : VideoMetadata α ι → DLRes μ
  dlChoices : List ℕ
  randomCheck : VideoMetadata α ι → Option μ → Bool
  queryEmb : α
  noveltyOracle : List (VideoMetadata α ι) → Option (List ℚ)

/-- Instrumentation of which phases of
`check_videos_and_calculate_rewards` ran for a submission. -/
structure Trace where
  filterRan : Bool
  auditRan : Bool
  dedupRan : Bool
  noveltyIndexCalls : ℕ
  noveltyScored : Bool
  relevanceScored : Bool
deriving DecidableEq

/-- The all-false trace: no phase has run. -/
def Trace.init : Trace := ⟨false, false, false, 0, false, false⟩

/-- Continuation of `check_videos_and_calculate_rewards` after
`get_random_video` returned a candidate (lines 677-784): the audit
(`random_check`) under the GPU semaphore, the re-stacked embeddings, the
intra-batch dedup, the novelty segment, the relevance scores and the
final aggregation `(sum + sum + novelty) / 3 / videos.num_videos` floored
at `MIN_SCORE` (a zero `num_videos` raises `ZeroDivisionError`, caught
into `None`). -/
def auditAndScore (c : Consts) (ext : Externals α ι μ) (sim : α → α → ℚ)
    (videos : Videos α ι) (metadata : List (VideoMetadata α ι))
    (m : VideoMetadata α ι) (media : Option μ) : Option ℚ × Trace :=
  if !ext.randomCheck m media then
    (some c.fakePunishment, { Trace.init with filterRan := true, auditRan := true })
  else
    let embs : Embeddings α :=
      ⟨metadata.map (·.video_emb), metadata.map (·.audio_emb),
       metadata.map (·.description_emb)⟩
    let flags := dedupFlags sim c.simThreshold embs.video
    let metadata2 := filterFlags metadata flags
    let tDedup : Trace :=
      { Trace.init with filterRan := true, auditRan := true, dedupRan := true }
    match filter_embeddings embs flags with
    | none => (none, tDedup)
    | some embs2 =>
      if metadata2.isEmpty then (some c.minScore, tDedup)
      else
        match noveltyPhase sim c.diffThreshold ext.noveltyOracle metadata2 embs2 with
        | (.errorNone, calls) =>
            (none, { tDedup with noveltyIndexCalls := calls, noveltyScored := true })
        | (.minScore, calls) =>
            (some c.minScore,
             { tDedup with noveltyIndexCalls := calls, noveltyScored := true })
        | (.ok _metadata3 embs3 trueScores, calls) =>
            let noveltyScore := compute_final_novelty_score c.diffThreshold trueScores
            let descriptionRelevance := List.zipWith sim embs3.video embs3.description
            let queryRelevance := embs3.video.map fun v => sim v ext.queryEmb
            let tFull : Trace :=
              { tDedup with noveltyIndexCalls := calls, noveltyScored := true,
                            relevanceScored := true }
            if videos.num_videos = 0 then (none, tFull)
            else
              let score := (descriptionRelevance.sum + queryRelevance.sum +
                noveltyScore) / 3 / (videos.num_videos : ℚ)
              (some (max score c.minScore), tFull)

/-- `VideosValidator.check_videos_and_calculate_rewards` (lines 653-788):
the fake-id gate (lines 660-662), candidate filtering with truncation to
`input_synapse.num_videos` (line 665), the audit candidate selection, and
`auditAndScore` above.  Any exception raised in the body is caught and
turned into `None` (lines 786-788). -/
def check_videos_and_calculate_rewards (c : Consts) (ext : Externals α ι μ)
    (sim : α → α → ℚ) (inputNumVideos : ℕ) (videos : Videos α ι) :
    Option ℚ × Trace :=
  if videos.video_metadata.any fun v => !ext.validId v.video_id then
    (some c.fakePunishment, Trace.init)
  else
    let metadata := candidateFilter c inputNumVideos videos.video_metadata
    let tFilter : Trace := { Trace.init with filterRan := true }
    match (get_random_video ext.dl ext.dlChoices metadata ext.checkVideo).1 with
    | .error => (none, tFilter)
    | .punished => (some c.fakePunishment, tFilter)
    | .noMedia m => auditAndScore c ext sim videos metadata m none
    | .withMedia m med => auditAndScore c ext sim videos metadata m (some med)

/-- Python's `int()` applied to a float: truncation toward zero. -/
def pyInt (q : ℚ) : ℤ := if 0 ≤ q then ⌊q⌋ else -⌊-q⌋

/-- A Python `dict` with insertion order, as an association list. -/
def dictGet (d : List (ℕ × ℚ)) (k : ℕ) : Option ℚ :=
  match d.find? fun p => p.1 = k with
  | some p => some p.2
  | none => none

/-- `d[k] = v`: update in place when present, else append. -/
def dictSet (d : List (ℕ × ℚ)) (k : ℕ) (v : ℚ) : List (ℕ × ℚ) :=
  if d.any fun p => p.1 = k then
    d.map fun p => if p.1 = k then (k, v) else p
  else d ++ [(k, v)]

/-- `cut_to_max_allowed_weights` (validator.py lines 126-145):
`sorted(score_dict.items(), key=lambda x: x[1], reverse=True)` (a stable
descending sort by score) truncated to the first `max_allowed_weights`
entries.  Python's stable reverse sort keeps tied entries in insertion
order, which `List.insertionSort` with the relation "score at least as
large" reproduces. -/
def cut_to_max_allowed_weights (score_dict : List (ℕ × ℚ))
    (max_allowed_weights : ℕ) : List (ℕ × ℚ) :=
  (score_dict.insertionSort fun a b => b.2 ≤ a.2).take max_allowed_weights

/-- The weight computation of `set_weights` (lines 98-119): cut the score
map, sum the kept scores (`scores = sum(score_dict.values())`), and map
each kept entry to `int(score / scores * 1000)`.  When the kept map is
non-empty and the sum is zero, Python raises `ZeroDivisionError` at
`score / scores`, modelled as `none`; on an empty kept map the loop body
never runs and the result is the empty dict. -/
def set_weights_weights (score_dict : List (ℕ × ℚ))
    (max_allowed_weights : ℕ) : Option (List (ℕ × ℤ)) :=
  if (cut_to_max_allowed_weights score_dict max_allowed_weights).isEmpty then
    some []
  else if ((cut_to_max_allowed_weights score_dict max_allowed_weights).map
      Prod.snd).sum = 0 then none
  else some ((cut_to_max_allowed_weights score_dict max_allowed_weights).map
    fun p => (p.1, pyInt (p.2 /
      ((cut_to_max_allowed_weights score_dict max_allowed_weights).map
        Prod.snd).sum * 1000)))

/-- Lines 490-495 of `validate_step`: for each `(reward, uid)` pair of
responding miners, a `None` reward is skipped; a present reward is
checked by `assert r <= 1` (an assertion failure aborts the round,
modelled as `none`) and stored in the score dict. -/
def applyRewards : List (Option ℚ × ℕ) → List (ℕ × ℚ) → Option (List (ℕ × ℚ))
  | [], d => some d
  | (none, _) :: rest, d => applyRewards rest d
  | (some r, uid) :: rest, d =>
      if r ≤ 1 then applyRewards rest (dictSet d uid r) else none

/-- Lines 497-502 of `validate_step`: every sampled uid that is not a
working miner is assigned `NO_RESPONSE_MINIMUM`. -/
def penalizeNonResponders (sample working : List ℕ) (d : List (ℕ × ℚ)) :
    List (ℕ × ℚ) :=
  sample.foldl (fun d uid =>
    if working.contains uid then d else dictSet d uid NO_RESPONSE_MINIMUM) d

/-- The aggregation step of `validate_step` (lines 489-502): build the
score dict from the reward list (aligned with the working-miner uid list)
and then floor-score the sampled non-responders. -/
def buildScoreDict (rewards : List (Option ℚ)) (working sample : List ℕ) :
    Option (List (ℕ × ℚ)) :=
  (applyRewards (rewards.zip working) []).map (penalizeNonResponders sample working)

/-! ### Helper lemmas -/

theorem filterFlags_sublist (xs : List β) (bs : List Bool) :
    (filterFlags xs bs).Sublist xs := by
  induction xs generalizing bs with
  | nil => cases bs <;> simp [filterFlags]
  | cons x t ih =>
    cases bs with
    | nil => simp [filterFlags]
    | cons b bt =>
      cases b with
      | false => simpa [filterFlags] using (ih bt).cons₂ x
      | true => simpa [filterFlags] using (ih bt).cons x

theorem filterFlags_replicate_false (zs : List β) (n : ℕ)
    (h : zs.length = n) : filterFlags zs (List.replicate n false) = zs := by
  induction zs generalizing n with
  | nil => cases n <;> simp_all [filterFlags]
  | cons z t ih =>
    cases n with
    | zero => simp at h
    | succ k =>
      simp only [List.replicate_succ, filterFlags, if_neg Bool.false_ne_true]
      simp only [List.length_cons, Nat.succ.injEq] at h
      rw [ih k h]

theorem length_dedupFlags (sim : α → α → ℚ) (thr : ℚ) (xs : List α) :
    (dedupFlags sim thr xs).length = xs.length := by
  induction xs with
  | nil => rfl
  | cons x t ih => simp [dedupFlags, ih]

theorem dedupFlags_get (sim : α → α → ℚ) (thr : ℚ) (xs : List α) (i : ℕ)
    (hi : i < xs.length) (hi2 : i < (dedupFlags sim thr xs).length) :
    (dedupFlags sim thr xs).get ⟨i, hi2⟩ =
      (xs.drop (i + 1)).any fun y => decide (thr < sim (xs.get ⟨i, hi⟩) y) := by
  induction xs generalizing i with
  | nil => simp at hi
  | cons x t ih =>
    cases i with
    | zero => simp [dedupFlags]
    | succ k =>
      simp only [List.length_cons, Nat.succ_lt_succ_iff] at hi
      simp only [dedupFlags, List.get_cons_succ, List.drop_succ_cons]
      exact ih k hi _

theorem dedupFlags_false_of_forall (sim : α → α → ℚ) (thr : ℚ) (x : α)
    (xs : List α) (h : ∀ y ∈ xs, ¬thr < sim x y) :
    (xs.any fun y => decide (thr < sim x y)) = false := by
  simp only [List.any_eq_false, decide_eq_true_eq]
  exact h

/-! ### C5: intra-batch deduplication is idempotent -/

theorem dedupFlags_of_filter_self (sim : α → α → ℚ) (thr : ℚ) (xs : List α) :
    dedupFlags sim thr (filterFlags xs (dedupFlags sim thr xs)) =
      List.replicate (filterFlags xs (dedupFlags sim thr xs)).length false := by
  induction xs with
  | nil => rfl
  | cons x t ih =>
    simp only [dedupFlags]
    rcases hb : t.any fun y => decide (thr < sim x y) with _ | _
    · have hall : ∀ y ∈ t, ¬thr < sim x y := by
        simpa [List.any_eq_false, decide_eq_true_eq] using hb
      have hsub : (filterFlags t (dedupFlags sim thr t)).Sublist t :=
        filterFlags_sublist t _
      have hall2 : ∀ y ∈ filterFlags t (dedupFlags sim thr t), ¬thr < sim x y :=
        fun y hy => hall y (hsub.mem hy)
      simp [filterFlags, dedupFlags, List.replicate_succ,
        dedupFlags_false_of_forall sim thr x _ hall2, ih]
    · simpa [filterFlags] using ih

/-- C5: intra-batch deduplication is idempotent — rerunning
`deduplicate_videos` on its own surviving batch flags no item, so a
second filtering pass leaves the surviving items, and any aligned list
of the same length (the metadata, each embedding modality), unchanged. -/
theorem dedup_idempotent (sim : α → α → ℚ) (thr : ℚ) (xs : List α)
    (zs : List β)
    (hz : zs.length = (filterFlags xs (dedupFlags sim thr xs)).length) :
    dedupFlags sim thr (filterFlags xs (dedupFlags sim thr xs)) =
      List.replicate (filterFlags xs (dedupFlags sim thr xs)).length false
    ∧ filterFlags (filterFlags xs (dedupFlags sim thr xs))
        (dedupFlags sim thr (filterFlags xs (dedupFlags sim thr xs))) =
        filterFlags xs (dedupFlags sim thr xs)
    ∧ filterFlags zs
        (dedupFlags sim thr (filterFlags xs (dedupFlags sim thr xs))) = zs := by
  refine ⟨dedupFlags_of_filter_self sim thr xs, ?_, ?_⟩
  · rw [dedupFlags_of_filter_self sim thr xs]
    exact filterFlags_replicate_false _ _ rfl
  · rw [dedupFlags_of_filter_self sim thr xs]
    exact filterFlags_replicate_false _ _ hz

/-- The concrete similarity table used by witnesses: similarity `0.96`
between vector codes `1` and `2`, `0` everywhere else (realised e.g. by
two unit-norm vectors at cosine `0.96`). -/
def simWitness : ℕ → ℕ → ℚ
  | 1, 2 => 96 / 100
  | _, _ => 0

/-- Witness for `dedup_idempotent` at a concrete batch: two
near-duplicate vectors (similarity `96/100`, threshold `95/100`) and an
aligned metadata list. -/
theorem dedup_idempotent_witness :
    dedupFlags simWitness (95 / 100)
        (filterFlags [1, 2] (dedupFlags simWitness (95 / 100) [1, 2])) = [false]
    ∧ filterFlags [10] (dedupFlags simWitness (95 / 100)
        (filterFlags [1, 2] (dedupFlags simWitness (95 / 100) [1, 2]))) = [10] := by
  have h := dedup_idempotent simWitness (95 / 100) [1, 2] [10]
    (by norm_num [dedupFlags, filterFlags, simWitness])
  refine ⟨?_, h.2.2⟩
  rw [h.1]
  norm_num [dedupFlags, filterFlags, simWitness]

/-! ### C6: directional duplicate flagging -/

/-- C6: in `deduplicate_videos`, item `i` is flagged iff its similarity
to some strictly later item exceeds the threshold; in particular with two
items whose similarity exceeds the threshold, the earlier is flagged
(dropped) and the later is not (kept). -/
theorem dedup_flag_characterization (sim : α → α → ℚ) (thr : ℚ)
    (xs : List α) :
    (∀ i (hi : i < xs.length) (hi2 : i < (dedupFlags sim thr xs).length),
      (dedupFlags sim thr xs).get ⟨i, hi2⟩ = true ↔
        ∃ j, ∃ hj : j < xs.length,
          i < j ∧ thr < sim (xs.get ⟨i, hi⟩) (xs.get ⟨j, hj⟩))
    ∧ ∀ a b : α, thr < sim a b → dedupFlags sim thr [a, b] = [true, false] := by
  constructor
  · intro i hi hi2
    rw [dedupFlags_get sim thr xs i hi hi2]
    simp only [List.any_eq_true, decide_eq_true_eq, List.get_eq_getElem]
    constructor
    · rintro ⟨y, hy, hsim⟩
      obtain ⟨k, hk, hky⟩ := List.mem_iff_getElem.mp hy
      have hk2 : i + 1 + k < xs.length := by
        have := hk
        simp only [List.length_drop] at this
        omega
      refine ⟨i + 1 + k, hk2, by omega, ?_⟩
      rw [List.getElem_drop] at hky
      rw [← hky] at hsim
      exact hsim
    · rintro ⟨j, hj, hij, hsim⟩
      have hk : j - (i + 1) < (xs.drop (i + 1)).length := by
        simp only [List.length_drop]
        omega
      refine ⟨xs.get ⟨j, hj⟩, ?_, hsim⟩
      have h3 : xs.get ⟨j, hj⟩ = (xs.drop (i + 1)).get ⟨j - (i + 1), hk⟩ := by
        simp only [List.get_eq_getElem, List.getElem_drop]
        congr 1
        omega
      rw [h3]
      exact List.get_mem _ _ _
  · intro a b h
    simp [dedupFlags, h]

/-- Witness for `dedup_flag_characterization`: the spec's scenario with
similarity `0.96` and threshold `0.95` — the earlier item is flagged,
the later kept. -/
theorem dedup_flag_characterization_witness :
    dedupFlags simWitness (95 / 100) [1, 2] = [true, false] :=
  (dedup_flag_characterization simWitness (95 / 100) [1, 2]).2 1 2
    (by norm_num [simWitness])

/-! ### C8: candidate filter -/

/-- C8: `metadata_check` keeps exactly the items whose duration lies in
the inclusive interval `[MIN_VIDEO_LENGTH, MAX_VIDEO_LENGTH]`, preserves
the original order (the result is a sublist), the candidate list is the
first `requested_count` survivors, an item of duration exactly
`MAX_VIDEO_LENGTH` passes and one of duration `MAX_VIDEO_LENGTH + 1` is
dropped. -/
theorem candidate_filter_spec (c : Consts)
    (h : c.minVideoLength ≤ c.maxVideoLength)
    (l : List (VideoMetadata α ι)) (n : ℕ) (v w : VideoMetadata α ι)
    (hv : v.end_time - v.start_time = c.maxVideoLength)
    (hw : w.end_time - w.start_time = c.maxVideoLength + 1) :
    metadata_check c l = l.filter (fun x =>
      decide (c.minVideoLength ≤ x.end_time - x.start_time ∧
        x.end_time - x.start_time ≤ c.maxVideoLength))
    ∧ (metadata_check c l).Sublist l
    ∧ candidateFilter c n l = (metadata_check c l).take n
    ∧ metadata_check c [v] = [v]
    ∧ metadata_check c [w] = [] := by
  refine ⟨?_, List.filter_sublist l, rfl, ?_, ?_⟩
  · apply List.filter_congr
    intro x _
    simp only [ge_iff_le, Bool.decide_and, Bool.and_comm]
  · have h1 : v.end_time - v.start_time ≤ c.maxVideoLength := by omega
    have h2 : c.minVideoLength ≤ v.end_time - v.start_time := by omega
    simp [metadata_check, h1, h2]
    omega
  · have h1 : ¬w.end_time - w.start_time ≤ c.maxVideoLength := by omega
    simp [metadata_check, h1]
    omega

/-- Witness for `candidate_filter_spec` at concrete bounds `[5, 120]`:
duration `120` passes, duration `121` is dropped. -/
theorem candidate_filter_spec_witness :
    metadata_check ⟨0, 0, 0, 0, 5, 120⟩
        [(⟨(), 0, 120, (), (), ()⟩ : VideoMetadata Unit Unit)] =
      [⟨(), 0, 120, (), (), ()⟩]
    ∧ metadata_check ⟨0, 0, 0, 0, 5, 120⟩
        [(⟨(), 0, 121, (), (), ()⟩ : VideoMetadata Unit Unit)] = [] := by
  have h := candidate_filter_spec (α := Unit) (ι := Unit)
    ⟨0, 0, 0, 0, 5, 120⟩ (by decide) [] 0
    ⟨(), 0, 120, (), (), ()⟩ ⟨(), 0, 121, (), (), ()⟩ (by decide) (by decide)
  exact ⟨h.2.2.2.1, h.2.2.2.2⟩

/-! ### C9: malformed video id fails the whole submission first -/

/-- C9: if any item's video id fails `is_valid_id`, the submission scores
`FAKE_VIDEO_PUNISHMENT` immediately — for every audit-gate outcome
(`ext.checkVideo` is arbitrary) — and the trace is the initial one: no
candidate filtering, no audit, no deduplication, no novelty-index call,
no novelty or relevance scoring has run. -/
theorem invalid_id_punishes (c : Consts) (ext : Externals α ι μ)
    (sim : α → α → ℚ) (inputNumVideos : ℕ) (videos : Videos α ι)
    (h : (videos.video_metadata.any fun v => !ext.validId v.video_id) = true) :
    check_videos_and_calculate_rewards c ext sim inputNumVideos videos =
      (some c.fakePunishment, Trace.init) := by
  simp [check_videos_and_calculate_rewards, h]

/-- Witness for `invalid_id_punishes`: a single item whose id `7` is
rejected by the validity oracle. -/
theorem invalid_id_punishes_witness :
    check_videos_and_calculate_rewards (α := ℕ) (ι := ℕ) (μ := Unit)
        ⟨19/20, 1/20, 1/50, -1, 5, 120⟩
        ⟨fun i => !(i = 7), true, fun _ => .timeout, [], fun _ _ => true, 0,
          fun _ => some []⟩
        (fun _ _ => 0) 8 ⟨8, [⟨7, 0, 10, 0, 0, 0⟩]⟩ =
      (some (-1), Trace.init) :=
  invalid_id_punishes ⟨19/20, 1/20, 1/50, -1, 5, 120⟩
    ⟨fun i => !(i = 7), true, fun _ => .timeout, [], fun _ _ => true, 0,
      fun _ => some []⟩
    (fun _ _ => 0) 8 ⟨8, [⟨7, 0, 10, 0, 0, 0⟩]⟩ (by decide)

/-! ### C7: non-responders receive the floor score -/

theorem dictGet_map_update_self (k : ℕ) (v : ℚ) :
    ∀ d : List (ℕ × ℚ), (d.any fun p => p.1 = k) = true →
      dictGet (d.map fun p => if p.1 = k then (k, v) else p) k = some v := by
  intro d
  induction d with
  | nil => intro h; simp at h
  | cons p t ih =>
    intro hany
    by_cases hp : p.1 = k
    · simp only [dictGet, List.map_cons, if_pos hp]
      rw [List.find?_cons_of_pos _ (by simp)]
    · simp only [List.any_cons, Bool.or_eq_true, decide_eq_true_eq] at hany
      rcases hany with h | h
      · exact absurd h hp
      · simp only [dictGet, List.map_cons, if_neg hp]
        rw [List.find?_cons_of_neg _ (by simpa using hp)]
        exact ih h

theorem dictGet_map_update_ne (k k' : ℕ) (v : ℚ) (hne : k' ≠ k) :
    ∀ d : List (ℕ × ℚ),
      dictGet (d.map fun p => if p.1 = k then (k, v) else p) k' = dictGet d k' := by
  intro d
  induction d with
  | nil => rfl
  | cons p t ih =>
    by_cases hp : p.1 = k
    · simp only [dictGet, List.map_cons, if_pos hp]
      rw [List.find?_cons_of_neg _ (by simpa using Ne.symm hne),
        List.find?_cons_of_neg _ (by simp [hp, Ne.symm hne])]
      exact ih
    · simp only [dictGet, List.map_cons, if_neg hp]
      by_cases hp' : p.1 = k'
      · rw [List.find?_cons_of_pos _ (by simpa using hp'),
          List.find?_cons_of_pos _ (by simpa using hp')]
      · rw [List.find?_cons_of_neg _ (by simpa using hp'),
          List.find?_cons_of_neg _ (by simpa using hp')]
        exact ih

theorem dictGet_dictSet_self (d : List (ℕ × ℚ)) (k : ℕ) (v : ℚ) :
    dictGet (dictSet d k v) k = some v := by
  unfold dictSet
  rcases hany : d.any fun p => p.1 = k with _ | _
  · rw [if_neg (by simp [hany])]
    simp only [dictGet, List.find?_append]
    have hnone : (d.find? fun p => decide (p.1 = k)) = none := by
      simp only [List.find?_eq_none, decide_eq_true_eq]
      simpa only [List.any_eq_false, decide_eq_true_eq] using hany
    simp [hnone]
  · rw [if_pos rfl]
    exact dictGet_map_update_self k v d hany

theorem dictGet_dictSet_ne (d : List (ℕ × ℚ)) (k k' : ℕ) (v : ℚ)
    (hne : k' ≠ k) : dictGet (dictSet d k v) k' = dictGet d k' := by
  unfold dictSet
  rcases hany : d.any fun p => p.1 = k with _ | _
  · rw [if_neg (by simp [hany])]
    simp only [dictGet, List.find?_append]
    have h2 : (([(k, v)] : List (ℕ × ℚ)).find? fun p => decide (p.1 = k')) = none := by
      simp [Ne.symm hne]
    rw [h2]
    cases d.find? fun p => decide (p.1 = k') <;> rfl
  · rw [if_pos rfl]
    exact dictGet_map_update_ne k k' v hne d

theorem penalize_preserves (working : List ℕ) (uid : ℕ) (v : ℚ) :
    ∀ (sample : List ℕ) (d : List (ℕ × ℚ)), dictGet d uid = some v →
      (∀ s ∈ sample, s = uid → v = NO_RESPONSE_MINIMUM) →
      dictGet (penalizeNonResponders sample working d) uid = some v := by
  intro sample
  induction sample with
  | nil => intro d h _; exact h
  | cons s rest ih =>
    intro d h hval
    simp only [penalizeNonResponders, List.foldl_cons]
    rcases hw : working.contains s with _ | _
    · rw [if_neg Bool.false_ne_true]
      by_cases hsu : s = uid
      · subst hsu
        have hv : v = NO_RESPONSE_MINIMUM := hval s (by simp) rfl
        exact ih (dictSet d s NO_RESPONSE_MINIMUM)
          (by rw [dictGet_dictSet_self, hv]) fun a ha => hval a (by simp [ha])
      · exact ih (dictSet d s NO_RESPONSE_MINIMUM)
          (by rw [dictGet_dictSet_ne d s uid _ fun h2 => hsu h2.symm]; exact h)
          fun a ha => hval a (by simp [ha])
    · rw [if_pos rfl]
      exact ih d h fun a ha => hval a (by simp [ha])

theorem penalize_sets_floor (working : List ℕ) (uid : ℕ) :
    ∀ (sample : List ℕ) (d : List (ℕ × ℚ)), uid ∈ sample →
      working.contains uid = false →
      dictGet (penalizeNonResponders sample working d) uid =
        some NO_RESPONSE_MINIMUM := by
  intro sample
  induction sample with
  | nil => intro d h _; simp at h
  | cons s rest ih =>
    intro d hmem hw
    simp only [penalizeNonResponders, List.foldl_cons]
    by_cases hsu : s = uid
    · subst hsu
      rw [if_neg (by rw [hw]; exact Bool.false_ne_true)]
      exact penalize_preserves working s NO_RESPONSE_MINIMUM rest
        (dictSet d s NO_RESPONSE_MINIMUM) (dictGet_dictSet_self d s _)
        fun _ _ _ => rfl
    · have hmem2 : uid ∈ rest := by
        rcases List.mem_cons.mp hmem with h | h
        · exact absurd h.symm hsu
        · exact h
      rcases hw2 : working.contains s with _ | _
      · rw [if_neg Bool.false_ne_true]
        exact ih (dictSet d s NO_RESPONSE_MINIMUM) hmem2 hw
      · rw [if_pos rfl]
        exact ih d hmem2 hw

/-- C7: whenever the aggregation step of `validate_step` completes
(`buildScoreDict` returns a score map), every sampled uid that is not
among the working (responding) miners is present in the final map with
score exactly `NO_RESPONSE_MINIMUM`. -/
theorem nonresponder_gets_floor (rewards : List (Option ℚ))
    (working sample : List ℕ) (uid : ℕ) (d : List (ℕ × ℚ))
    (hbuild : buildScoreDict rewards working sample = some d)
    (hmem : uid ∈ sample) (hnw : uid ∉ working) :
    dictGet d uid = some NO_RESPONSE_MINIMUM := by
  unfold buildScoreDict at hbuild
  rcases happ : applyRewards (rewards.zip working) [] with _ | base
  · rw [happ] at hbuild
    simp at hbuild
  · rw [happ] at hbuild
    simp only [Option.map_some', Option.some.injEq] at hbuild
    subst hbuild
    have hw : working.contains uid = false := by
      rcases h : working.contains uid with _ | _
      · rfl
      · exact absurd (List.elem_iff.mp h) hnw
    exact penalize_sets_floor working uid sample base hmem hw

/-- Witness for `nonresponder_gets_floor`: a round sampling uids
`[1, 2]` where only miner `1` responded (reward `1/2`); miner `2` gets
exactly the floor score `0.005`. -/
theorem nonresponder_gets_floor_witness :
    buildScoreDict [some (1/2)] [1] [1, 2] =
      some [(1, 1/2), (2, NO_RESPONSE_MINIMUM)]
    ∧ dictGet [(1, 1/2), (2, NO_RESPONSE_MINIMUM)] 2 =
      some NO_RESPONSE_MINIMUM := by
  constructor
  · norm_num [buildScoreDict, applyRewards, penalizeNonResponders, dictSet,
      dictGet, NO_RESPONSE_MINIMUM]
  · exact nonresponder_gets_floor [some (1/2)] [1] [1, 2] 2
      [(1, 1/2), (2, NO_RESPONSE_MINIMUM)]
      (by norm_num [buildScoreDict, applyRewards, penalizeNonResponders,
        dictSet, dictGet, NO_RESPONSE_MINIMUM])
      (by simp) (by simp)



/-! ### C4: weight normalization bounds -/

/-- C4 counterexample: a non-empty score map whose values are all zero
(values may legally be `0`, e.g. the `MIN_SCORE` floor could be zero-
valued input) makes `set_weights` raise `ZeroDivisionError` at
`score / scores`, so no weight map is produced at all. -/
theorem set_weights_zero_sum_raises :
    set_weights_weights [(0, 0)] 512 = none := by
  simp [set_weights_weights, cut_to_max_allowed_weights, List.insertionSort,
    List.orderedInsert]

theorem mem_cut_mem (d : List (ℕ × ℚ)) (m : ℕ) (p : ℕ × ℚ)
    (hp : p ∈ cut_to_max_allowed_weights d m) : p ∈ d := by
  have h1 : p ∈ d.insertionSort fun a b => b.2 ≤ a.2 :=
    List.take_subset _ _ hp
  exact (List.perm_insertionSort _ d).mem_iff.mp h1

/-- C4 (amended): for a score map with non-negative values whose kept
entries (after `cut_to_max_allowed_weights`) either are empty or have a
positive score sum, `set_weights` produces a weight map with at most
`max_allowed_weights` entries, each weight being
`floor(score / sum(kept scores) * 1000)`, and the integer weights summing
to at most `1000`.  (On a non-empty kept map whose scores sum to zero the
code instead raises `ZeroDivisionError` — see
`set_weights_zero_sum_raises`.) -/
theorem set_weights_bounds (d : List (ℕ × ℚ)) (m : ℕ)
    (hpos : ∀ p ∈ d, 0 ≤ p.2)
    (hsum : cut_to_max_allowed_weights d m = [] ∨
      0 < ((cut_to_max_allowed_weights d m).map Prod.snd).sum) :
    ∃ out, set_weights_weights d m = some out ∧
      out.length ≤ m ∧
      out = (cut_to_max_allowed_weights d m).map (fun p =>
        (p.1, ⌊p.2 / ((cut_to_max_allowed_weights d m).map Prod.snd).sum * 1000⌋)) ∧
      (out.map Prod.snd).sum ≤ 1000 := by
  rcases hsum with hemp | hpos_sum
  · refine ⟨[], ?_, by simp, by simp [hemp], by simp⟩
    simp [set_weights_weights, hemp]
  · have hkept_pos : ∀ p ∈ cut_to_max_allowed_weights d m, 0 ≤ p.2 :=
      fun p hp => hpos p (mem_cut_mem d m p hp)
    set kept := cut_to_max_allowed_weights d m with hkept
    set s := (kept.map Prod.snd).sum with hs
    have hne : ¬kept.isEmpty = true := by
      intro h
      rw [List.isEmpty_iff] at h
      rw [hs, h] at hpos_sum
      simp at hpos_sum
    have hs0 : s ≠ 0 := ne_of_gt hpos_sum
    have heq : set_weights_weights d m =
        some (kept.map fun p => (p.1, pyInt (p.2 / s * 1000))) := by
      unfold set_weights_weights
      rw [← hkept, ← hs, if_neg hne, if_neg hs0]
    refine ⟨_, heq, ?_, ?_, ?_⟩
    · rw [List.length_map, hkept]
      unfold cut_to_max_allowed_weights
      exact (List.length_take _ _).le.trans (min_le_left _ _)
    · apply List.map_congr_left
      intro p hp
      have h0 : 0 ≤ p.2 / s * 1000 :=
        mul_nonneg (div_nonneg (hkept_pos p hp) hpos_sum.le) (by norm_num)
      simp only [pyInt, if_pos h0]
    · have hcast : (((kept.map fun p => (p.1, pyInt (p.2 / s * 1000))).map
          Prod.snd).sum : ℚ) ≤ 1000 := by
        rw [List.map_map]
        have hfun : (Prod.snd ∘ fun p : ℕ × ℚ => (p.1, pyInt (p.2 / s * 1000))) =
            fun p : ℕ × ℚ => pyInt (p.2 / s * 1000) := rfl
        rw [hfun, Int.cast_list_sum, List.map_map]
        have hle : ((kept.map fun p : ℕ × ℚ =>
            ((pyInt (p.2 / s * 1000) : ℤ) : ℚ)).sum) ≤
            (kept.map fun p : ℕ × ℚ => p.2 / s * 1000).sum := by
          apply List.sum_le_sum
          intro p hp
          have h0 : 0 ≤ p.2 / s * 1000 :=
            mul_nonneg (div_nonneg (hkept_pos p hp) hpos_sum.le) (by norm_num)
          simp only [pyInt, if_pos h0]
          exact Int.floor_le _
        refine le_trans hle ?_
        have hrw : (fun p : ℕ × ℚ => p.2 / s * 1000) =
            fun p : ℕ × ℚ => p.2 * (1000 / s) := by
          funext p
          ring
        rw [hrw, List.sum_map_mul_right, ← hs, mul_comm,
          div_mul_cancel₀ _ hs0]
      exact_mod_cast hcast

/-- Witness for `set_weights_bounds`: the map
`{3 ↦ 1, 7 ↦ 1, 5 ↦ 2}` cut to `2` entries keeps `{5 ↦ 2, 3 ↦ 1}`
(stable descending sort) and yields weights `666` and `333`, summing to
`999 ≤ 1000`. -/
theorem set_weights_bounds_witness :
    ∃ out, set_weights_weights [(3, 1), (7, 1), (5, 2)] 2 = some out ∧
      out.length ≤ 2 ∧ (out.map Prod.snd).sum ≤ 1000 := by
  obtain ⟨out, h1, h2, h3, h4⟩ := set_weights_bounds [(3, 1), (7, 1), (5, 2)] 2
    (by norm_num)
    (Or.inr (by norm_num [cut_to_max_allowed_weights, List.insertionSort,
      List.orderedInsert]))
  exact ⟨out, h1, h2, h4⟩

/-! ### C10: the audit candidate loop terminates, one attempt per item -/

theorem perm_get_cons_eraseIdx (l : List β) (i : ℕ) (h : i < l.length) :
    (l.get ⟨i, h⟩ :: l.eraseIdx i).Perm l := by
  rw [List.eraseIdx_eq_take_drop_succ]
  refine List.perm_middle.symm.trans ?_
  rw [List.get_eq_getElem, List.getElem_cons_drop, List.take_append_drop]

theorem grvLoop_timeout_aux (dl : VideoMetadata α ι → DLRes μ) :
    ∀ (n : ℕ) (pending : List (VideoMetadata α ι)), pending.length = n →
      pending ≠ [] → (∀ x ∈ pending, dl x = DLRes.timeout) →
      ∀ (choices : List ℕ) (acc : List (VideoMetadata α ι)),
      ∃ m l', grvLoop dl choices pending acc = (.noMedia m, acc ++ l') ∧
        m ∈ pending ∧ l'.Perm pending ∧ (acc ++ l').getLast? = some m := by
  intro n
  induction n using Nat.strong_induction_on with
  | _ n ih =>
    intro pending hlen hne hto choices acc
    obtain ⟨p, ps, rfl⟩ : ∃ p ps, pending = p :: ps := by
      cases pending with
      | nil => exact absurd rfl hne
      | cons p ps => exact ⟨p, ps, rfl⟩
    have hidx : choices.headD 0 % (p :: ps).length < (p :: ps).length :=
      Nat.mod_lt _ (Nat.succ_pos _)
    set m := (p :: ps).get ⟨choices.headD 0 % (p :: ps).length, hidx⟩ with hm
    have hdl : dl m = DLRes.timeout := hto m (List.get_mem _ _ _)
    have hstep : grvLoop dl choices (p :: ps) acc =
        grvLoop dl choices.tail
          ((p :: ps).eraseIdx (choices.headD 0 % (p :: ps).length))
          (acc ++ [m]) := by
      rw [grvLoop]
      simp only [← hm, hdl]
    by_cases hrest : (p :: ps).eraseIdx (choices.headD 0 % (p :: ps).length) = []
    · refine ⟨m, [m], ?_, List.get_mem _ _ _, ?_, ?_⟩
      · rw [hstep, hrest, grvLoop, List.getLast?_concat]
      · have hp := perm_get_cons_eraseIdx (p :: ps) _ hidx
        rw [hrest] at hp
        exact hp.trans (List.Perm.refl _) |>.symm.symm
      · exact List.getLast?_concat _
    · have hlt : ((p :: ps).eraseIdx
          (choices.headD 0 % (p :: ps).length)).length < n := by
        rw [List.length_eraseIdx_of_lt hidx, hlen]
        omega
      have hto2 : ∀ x ∈ (p :: ps).eraseIdx
          (choices.headD 0 % (p :: ps).length), dl x = DLRes.timeout :=
        fun x hx => hto x ((List.eraseIdx_sublist _ _).subset hx)
      obtain ⟨m2, l', heq, hmem, hperm, hlast⟩ :=
        ih _ hlt _ rfl hrest hto2 choices.tail (acc ++ [m])
      refine ⟨m2, m :: l', ?_, ?_, ?_, ?_⟩
      · rw [hstep, heq, List.append_assoc, List.singleton_append]
      · exact (List.eraseIdx_sublist _ _).subset hmem
      · exact (hperm.cons m).trans (perm_get_cons_eraseIdx (p :: ps) _ hidx)
      · rw [← List.singleton_append, ← List.append_assoc]
        exact hlast

/-- C10: with media verification enabled and a non-empty candidate list
on which every download attempt times out, `get_random_video` terminates
having attempted each candidate exactly once (the attempted list is a
permutation of the candidates, so there are exactly `len(metadata)`
timed-out attempts) and returns the last attempted candidate with no
media — the description-only fallback — instead of looping forever. -/
theorem get_random_video_all_timeouts (dl : VideoMetadata α ι → DLRes μ)
    (choices : List ℕ) (metadata : List (VideoMetadata α ι))
    (hne : metadata ≠ [])
    (hto : ∀ x ∈ metadata, dl x = DLRes.timeout) :
    ∃ m att, get_random_video dl choices metadata true = (.noMedia m, att) ∧
      m ∈ metadata ∧ att.Perm metadata ∧ att.length = metadata.length ∧
      att.getLast? = some m := by
  obtain ⟨m, l', heq, hmem, hperm, hlast⟩ :=
    grvLoop_timeout_aux dl metadata.length metadata rfl hne hto choices []
  refine ⟨m, l', ?_, hmem, hperm, hperm.length_eq, ?_⟩
  · unfold get_random_video
    rw [if_pos rfl]
    simpa using heq
  · simpa using hlast

/-- Witness for `get_random_video_all_timeouts`: two candidates, both
timing out; the loop stops after two attempts with a description-only
fallback. -/
theorem get_random_video_all_timeouts_witness :
    ∃ m att, get_random_video (α := ℕ) (ι := ℕ) (μ := Unit)
        (fun _ => DLRes.timeout) [0, 0]
        [⟨0, 0, 10, 0, 0, 0⟩, ⟨1, 0, 10, 1, 1, 1⟩] true = (.noMedia m, att) ∧
      att.length = 2 := by
  obtain ⟨m, att, heq, _, _, hlen, _⟩ := get_random_video_all_timeouts
    (α := ℕ) (ι := ℕ) (μ := Unit) (fun _ => DLRes.timeout) [0, 0]
    [⟨0, 0, 10, 0, 0, 0⟩, ⟨1, 0, 10, 1, 1, 1⟩] (by simp) (fun x _ => rfl)
  exact ⟨m, att, heq, hlen⟩

/-! ### C1: cross-submission novelty -/

theorem length_novelty_batch (sim : α → α → ℚ) (l : List α) (h : l ≠ []) :
    (compute_novelty_score_among_batch sim l).length = l.length := by
  induction l with
  | nil => exact absurd rfl h
  | cons x xs ih =>
    cases xs with
    | nil => rfl
    | cons y ys =>
      simp only [compute_novelty_score_among_batch, List.length_cons]
      rw [ih (by simp)]
      simp

/-- C1 (amended): when every item of the deduplicated batch has local
novelty `≥ DIFFERENCE_THRESHOLD` — so the external index is queried with
exactly the full batch — and the index answers with one score per
queried item, the novelty segment computes the true novelty of item `i`
as `min(local_i, global_i)`, drops from the metadata list and from every
aligned embedding modality exactly the items whose true novelty is
`< DIFFERENCE_THRESHOLD`, and returns `MIN_SCORE` when all are dropped. -/
theorem novelty_full_coverage (sim : α → α → ℚ) (T : ℚ)
    (oracle : List (VideoMetadata α ι) → Option (List ℚ))
    (metadata : List (VideoMetadata α ι)) (embs : Embeddings α)
    (hne : metadata ≠ [])
    (hv : embs.video.length = metadata.length)
    (ha : embs.audio.length = metadata.length)
    (hd : embs.description.length = metadata.length)
    (hall : ∀ s ∈ compute_novelty_score_among_batch sim embs.video, T ≤ s)
    (g : List ℚ) (hg : oracle metadata = some g)
    (hglen : g.length = metadata.length) :
    noveltyPhase sim T oracle metadata embs =
      (if (filterFlags metadata ((trueNoveltyScores sim embs g).map
            fun s => decide (s < T))).isEmpty
       then NoveltyOutcome.minScore
       else NoveltyOutcome.ok
         (filterFlags metadata ((trueNoveltyScores sim embs g).map
            fun s => decide (s < T)))
         ⟨filterFlags embs.video ((trueNoveltyScores sim embs g).map
            fun s => decide (s < T)),
          filterFlags embs.audio ((trueNoveltyScores sim embs g).map
            fun s => decide (s < T)),
          filterFlags embs.description ((trueNoveltyScores sim embs g).map
            fun s => decide (s < T))⟩
         (trueNoveltyScores sim embs g), 1) := by
  have hvne : embs.video ≠ [] := by
    intro h
    rw [h] at hv
    exact hne (List.length_eq_zero.mp hv.symm)
  have hlocal_len :
      (compute_novelty_score_among_batch sim embs.video).length =
        metadata.length := by
    rw [length_novelty_batch sim _ hvne, hv]
  have hzlen1 :
      (embs.video.zip (compute_novelty_score_among_batch sim embs.video)).length =
        metadata.length := by
    rw [List.length_zip, hv, hlocal_len, min_self]
  have htc : noveltyToCheck sim T metadata embs =
      (embs.video.zip (compute_novelty_score_among_batch sim embs.video)).zip
        metadata := by
    unfold noveltyToCheck
    apply List.filter_eq_self.mpr
    rintro ⟨⟨v, s⟩, mm⟩ hp
    have h1 := (List.of_mem_zip hp).1
    have h2 := (List.of_mem_zip h1).2
    simpa [ge_iff_le] using hall s h2
  have htclen : (noveltyToCheck sim T metadata embs).length =
      metadata.length := by
    rw [htc, List.length_zip, hzlen1, min_self]
  have htcne : (noveltyToCheck sim T metadata embs).isEmpty = false := by
    rw [List.isEmpty_eq_false]
    intro h
    rw [h] at htclen
    exact hne (List.length_eq_zero.mp htclen.symm)
  have hsnd : (noveltyToCheck sim T metadata embs).map Prod.snd = metadata := by
    rw [htc]
    exact List.map_snd_zip _ _ (le_of_eq hzlen1.symm)
  have hgl : noveltyGlobal sim T oracle metadata embs = some g := by
    unfold noveltyGlobal
    rw [htcne, if_neg Bool.false_ne_true, hsnd, hg]
  have hgne : g.isEmpty = false := by
    rw [List.isEmpty_eq_false]
    intro h
    rw [h] at hglen
    exact hne (List.length_eq_zero.mp hglen.symm)
  have hmask_len : ((trueNoveltyScores sim embs g).map
      fun s => decide (s < T)).length = metadata.length := by
    simp only [trueNoveltyScores, List.length_map, List.length_zipWith,
      hlocal_len, hglen, min_self]
  have hfe : filter_embeddings embs ((trueNoveltyScores sim embs g).map
      fun s => decide (s < T)) =
      some ⟨filterFlags embs.video ((trueNoveltyScores sim embs g).map
            fun s => decide (s < T)),
          filterFlags embs.audio ((trueNoveltyScores sim embs g).map
            fun s => decide (s < T)),
          filterFlags embs.description ((trueNoveltyScores sim embs g).map
            fun s => decide (s < T))⟩ := by
    unfold filter_embeddings
    rw [if_pos ⟨by rw [hmask_len, hv], by rw [hmask_len, ha],
      by rw [hmask_len, hd]⟩]
  unfold noveltyPhase
  rw [hgl, htcne, if_neg Bool.false_ne_true]
  simp only [noveltyResolve]
  rw [hgne, if_neg Bool.false_ne_true, hfe]

/-- The concrete similarity table of the C1 counterexample: similarity
`0.9` between the vector codes `10` and `11` (two unit vectors at cosine
`0.9`), `0` elsewhere. -/
def simPartial : ℕ → ℕ → ℚ
  | 10, 11 => 9 / 10
  | _, _ => 0

/-- C1 counterexample: a two-item batch where only the second item has
local novelty `≥ DIFFERENCE_THRESHOLD` (local scores are
`[1/10, 1]`, threshold `1/2`), so the index is queried exactly with that
one item and answers the non-empty `[1]`.  The claim's hypotheses hold,
yet the code zips the full local list with the one-element global list:
the only computed "true novelty" pairs item 0's local score with item
1's global score, the `< threshold` mask has length 1, the metadata
filter drops everything, and the embedding mask raises (length mismatch)
— the segment yields `None` (`errorNone`).  In particular item 1, whose
claimed true novelty `min(1, 1) = 1` is above the threshold, is *not*
kept in the batch, refuting the claim. -/
theorem novelty_partial_coverage_error :
    (noveltyToCheck simPartial (1/2)
        [⟨0, 0, 10, 10, 0, 0⟩, ⟨1, 0, 10, 11, 0, 0⟩]
        ⟨[10, 11], [0, 0], [0, 0]⟩).map Prod.snd = [⟨1, 0, 10, 11, 0, 0⟩]
    ∧ noveltyPhase simPartial (1/2) (fun _ => some [1])
        [⟨0, 0, 10, 10, 0, 0⟩, ⟨1, 0, 10, 11, 0, 0⟩]
        ⟨[10, 11], [0, 0], [0, 0]⟩ = (NoveltyOutcome.errorNone, 1) := by
  constructor
  · norm_num [noveltyToCheck, compute_novelty_score_among_batch, listMax,
      simPartial]
  · norm_num [noveltyPhase, noveltyToCheck, noveltyGlobal, noveltyResolve,
      trueNoveltyScores, compute_novelty_score_among_batch, listMax,
      simPartial, filter_embeddings, filterFlags]

/-- Witness for `novelty_full_coverage`: a single item with local
novelty `1 ≥ 1/2` whose global score is `1`; it survives with true
novelty `min(1, 1) = 1`. -/
theorem novelty_full_coverage_witness :
    noveltyPhase simWitness (1/2) (fun _ => some [1])
        [(⟨0, 0, 10, 5, 6, 7⟩ : VideoMetadata ℕ ℕ)] ⟨[5], [6], [7]⟩ =
      (NoveltyOutcome.ok [⟨0, 0, 10, 5, 6, 7⟩] ⟨[5], [6], [7]⟩ [1], 1) := by
  have h := novelty_full_coverage simWitness (1/2) (fun _ => some [1])
    [(⟨0, 0, 10, 5, 6, 7⟩ : VideoMetadata ℕ ℕ)] ⟨[5], [6], [7]⟩
    (by simp) rfl rfl rfl
    (by
      intro s hs
      simp only [compute_novelty_score_among_batch, List.mem_singleton] at hs
      subst hs
      norm_num)
    [1] rfl (by simp)
  rw [h]
  norm_num [trueNoveltyScores, compute_novelty_score_among_batch,
    filterFlags]

/-! ### C2: zero survivors — evaluation at the failing input -/

/-- A concrete constants instance for evaluations: similarity threshold
`0.95`, difference threshold `0.05`, minimum score `0.02`, punishment
`-1`, duration bounds `[5, 120]`. -/
def evalConsts : Consts := ⟨19/20, 1/20, 1/50, -1, 5, 120⟩

/-- C2, evaluated at the failing input: a submission whose single item
has duration `MAX_VIDEO_LENGTH + 1 = 121`, so the candidate filter
leaves zero survivors.  `get_random_video` then raises —
`random.choice([])` (`IndexError`) when the audit gate is off, or the
final `return random_metadata, None` with `random_metadata` never bound
(`UnboundLocalError`) when it is on — and the `except` handler converts
the exception into a returned `None`: the submission is unscored rather
than scored `MIN_SCORE`.  The novelty index is indeed never called
(`noveltyIndexCalls = 0` in the trace). -/
theorem zero_survivors_returns_none :
    check_videos_and_calculate_rewards evalConsts
        (⟨fun _ => true, true, fun _ => .timeout, [], fun _ _ => true, 0,
          fun _ => some []⟩ : Externals ℕ ℕ Unit) (fun _ _ => 0) 8
        ⟨8, [⟨0, 0, 121, 0, 0, 0⟩]⟩ =
      (none, { Trace.init with filterRan := true })
    ∧ check_videos_and_calculate_rewards evalConsts
        (⟨fun _ => true, false, fun _ => .timeout, [], fun _ _ => true, 0,
          fun _ => some []⟩ : Externals ℕ ℕ Unit) (fun _ _ => 0) 8
        ⟨8, [⟨0, 0, 121, 0, 0, 0⟩]⟩ =
      (none, { Trace.init with filterRan := true })
    ∧ ({ Trace.init with filterRan := true } : Trace).noveltyIndexCalls = 0 := by
  refine ⟨?_, ?_, rfl⟩ <;>
    norm_num [check_videos_and_calculate_rewards, candidateFilter,
      metadata_check, get_random_video, grvLoop, evalConsts, Trace.init]

/-! ### C3: the aggregated score is not bounded by 1 -/

/-- The rational dot product; for unit-norm vectors it coincides with
the cosine similarity computed by the torch kernel. -/
def dotProductSim (a b : List ℚ) : ℚ := (List.zipWith (· * ·) a b).sum

/-- C3, evaluated at the failing input: a response carrying two valid
items with orthogonal unit embedding vectors `(1,0)` and `(0,1)` (all
cosine similarities lie in `[-1, 1]`: each item's description embedding
equals its video embedding, the query embedding is `(1,0)`), whose
miner-controlled `num_videos` field is `1` while the validator truncates
with its own request count `8`.  Both items survive every filter
(similarities `0 < 0.95`, local novelties `[1, 1] ≥ 0.05`, global scores
`[1, 1]`), so description relevance sums to `2`, query relevance to `1`,
the novelty aggregate to `2`, and the final score is
`(2 + 1 + 2) / 3 / num_videos = 5/3 > 1` — violating the claimed upper
bound `1.0` and the round-level `assert r <= 1` of `validate_step`. -/
theorem score_exceeds_one :
    (check_videos_and_calculate_rewards evalConsts
        (⟨fun _ => true, false, fun _ => .timeout, [0], fun _ _ => true,
          [1, 0], fun _ => some [1, 1]⟩ : Externals (List ℚ) ℕ Unit)
        dotProductSim 8
        ⟨1, [⟨0, 0, 10, [1, 0], [1, 0], [1, 0]⟩,
             ⟨1, 0, 10, [0, 1], [0, 1], [0, 1]⟩]⟩).1 = some (5/3)
    ∧ (1 : ℚ) < 5/3 ∧ evalConsts.minScore ≤ 1 := by
  refine ⟨?_, by norm_num, by norm_num [evalConsts]⟩
  norm_num [check_videos_and_calculate_rewards, candidateFilter,
    metadata_check, get_random_video, grvLoop, auditAndScore, dedupFlags,
    filterFlags, filter_embeddings, noveltyPhase, noveltyToCheck,
    noveltyGlobal, noveltyResolve, trueNoveltyScores,
    compute_novelty_score_among_batch, compute_final_novelty_score,
    listMax, dotProductSim, evalConsts]

end OmegaValidator
